import Mathlib

/-!
Shallow embedding of `src/extract-info.ts` (Raycast "Image to Data" extension).

JavaScript strings are modelled as `List Char`; the relevant JS string and
regex operations (trim, anchored replace, multiline test, slice, parseInt,
JSON.parse) are implemented faithfully below.  Model/network interactions are
modelled by explicit outcome values, and the `main` orchestration is modelled
as the list of observable events it performs.
-/

/-- Whitespace class of JavaScript: the character set matched by the regex
class backslash-s and removed by `String.prototype.trim` (ECMA-262
WhiteSpace together with LineTerminator). -/
def isWS (c : Char) : Bool :=
  c = ' ' || c = '\t' || c = '\n' || c.toNat = 11 || c.toNat = 12 || c = '\r' ||
  c.toNat = 0xa0 || c.toNat = 0x1680 || (0x2000 ≤ c.toNat && c.toNat ≤ 0x200a) ||
  c.toNat = 0x2028 || c.toNat = 0x2029 || c.toNat = 0x202f || c.toNat = 0x205f ||
  c.toNat = 0x3000 || c.toNat = 0xfeff

/-- Line terminators of JavaScript regexes: the positions at which the
multiline anchors of a regex with the m flag match. -/
def isLineTerm (c : Char) : Bool :=
  c = '\n' || c = '\r' || c.toNat = 0x2028 || c.toNat = 0x2029

/-- Model of `String.prototype.trim`: drop JS whitespace from both ends. -/
def jsTrim (l : List Char) : List Char :=
  ((l.dropWhile isWS).reverse.dropWhile isWS).reverse

/-- Case-insensitive literal prefix match (the /i flag on a literal):
on success return the rest of the input after the matched prefix. -/
def ciMatch : List Char → List Char → Option (List Char)
  | [], rest => some rest
  | _ :: _, [] => none
  | p :: ps, c :: cs => if c.toLower = p then ciMatch ps cs else none

/-- First alternative of the boilerplate regex of `sanitizeOutput` line 340:
the lead-in group matching "this image" or "the image" case-insensitively
(the two alternatives are prefix-incompatible, so regex alternation order
is immaterial). -/
def leadIn (l : List Char) : Option (List Char) :=
  ciMatch (("this image").toList) l <|> ciMatch (("the image").toList) l

/-- Second group of the boilerplate regex: "shows", "is" or "contains"
case-insensitively (pairwise distinct initial letters make the alternation
deterministic; the regex continuation after the group always succeeds). -/
def leadKeyword (l : List Char) : Option (List Char) :=
  ciMatch (("shows").toList) l <|> ciMatch (("is").toList) l <|>
    ciMatch (("contains").toList) l

/-- Test whether a list of characters is nonempty with a JS-whitespace head
(used for the backslash-s-plus part of the boilerplate regex). -/
def wsHead : List Char → Bool
  | [] => false
  | c :: _ => isWS c

/-- Optional single punctuation character of the boilerplate regex (the
character class holding a colon and a hyphen, with a question mark). -/
def afterPunct : List Char → List Char
  | [] => []
  | c :: t => if c = ':' ∨ c = '-' then t else c :: t

/-- Anchored match of the boilerplate regex of `sanitizeOutput` line 340,
case-insensitive: lead-in alternative, one-or-more whitespace, keyword
alternative, optional whitespace, optional colon-or-hyphen, optional
whitespace.  On success, returns the input with the matched prefix removed
(which is the result of `String.prototype.replace` by the empty string on
an anchored regex without the g flag). -/
def matchLeadIn (l : List Char) : Option (List Char) :=
  match leadIn l with
  | none => none
  | some r1 =>
    if wsHead r1 then
      match leadKeyword (r1.dropWhile isWS) with
      | none => none
      | some r3 => some ((afterPunct (r3.dropWhile isWS)).dropWhile isWS)
    else none

/-- Boilerplate stripping step of `sanitizeOutput` (line 340): replace a
single anchored lead-in match by the empty string, otherwise the identity. -/
def stripBoilerplate (l : List Char) : List Char :=
  match matchLeadIn l with
  | some r => r
  | none => l

/-- Keyword alternative of the confidence regex: "high", "medium" or "low",
case-insensitively (distinct initial letters make it deterministic). -/
def confKeyword (l : List Char) : Option (List Char) :=
  ciMatch (("high").toList) l <|> ciMatch (("medium").toList) l <|>
    ciMatch (("low").toList) l

/-- Attempted match of the confidence regex body starting at one line-start
position: optional whitespace, "confidence:" case-insensitively, optional
whitespace, the keyword, then optional whitespace up to the multiline
dollar anchor (end of input, or a position directly before a line
terminator — the whitespace star can stop inside its run at such a
position, so the run merely has to reach the end or contain a line
terminator). -/
def confAt (l : List Char) : Bool :=
  match ciMatch (("confidence:").toList) (l.dropWhile isWS) with
  | none => false
  | some r2 =>
    match confKeyword (r2.dropWhile isWS) with
    | none => false
    | some r4 => (r4.dropWhile isWS).isEmpty || (r4.takeWhile isWS).any isLineTerm

/-- Scan for line-start positions after a line terminator and try the
confidence regex body at each. -/
def hasConfLineFrom : List Char → Bool
  | [] => false
  | c :: t => (isLineTerm c && confAt t) || hasConfLineFrom t

/-- Model of the test of the multiline case-insensitive confidence regex of
`sanitizeOutput` line 341: does the pattern match at the start of the text
or at any position following a line terminator. -/
def hasConfLine (l : List Char) : Bool :=
  confAt l || hasConfLineFrom l

/-- Exact text of the default confidence line appended by the code. -/
def confMediumLine : List Char := ("Confidence: medium").toList

/-- Suffix appended at line 342: a newline followed by the default
confidence line (19 characters in total). -/
def confMediumSuffix : List Char := ("\nConfidence: medium").toList

/-- Truncation marker appended at line 345: a newline followed by the
bracketed word "truncated" (12 characters in total). -/
def truncMarker : List Char := ("\n[truncated]").toList

/-- Confidence step of `sanitizeOutput` (lines 341-343): append the default
confidence line when the flag is set and the confidence regex matches
nowhere in the text. -/
def confStep (includeConfidence : Bool) (out : List Char) : List Char :=
  if includeConfidence && !(hasConfLine out) then out ++ confMediumSuffix else out

/-- Model of `String.prototype.slice(0, e)` for an integer end index:
a negative end counts from the end of the string. -/
def jsSliceTo (l : List Char) (e : Int) : List Char :=
  if e < 0 then l.take (((l.length : Int) + e).toNat) else l.take e.toNat

/-- Truncation step of `sanitizeOutput` (lines 344-346): when the text is
longer than the budget, cut at the budget boundary and append the marker. -/
def truncStep (maxChars : Int) (out : List Char) : List Char :=
  if (out.length : Int) > maxChars then jsSliceTo out maxChars ++ truncMarker else out

/-- Model of `sanitizeOutput` (lines 338-348): trim, strip one anchored
boilerplate lead-in, optionally append a confidence line, truncate to the
budget, and trim again.  The null-coalescing of the source's first line is
dropped since the model's input is always a string. -/
def sanitizeOutput (text : List Char) (maxChars : Int) (includeConfidence : Bool) : List Char :=
  jsTrim (truncStep maxChars (confStep includeConfidence (stripBoilerplate (jsTrim text))))

/-- Last line of a text: the characters after the final line terminator
(the whole text when no line terminator occurs). -/
def lastLine (l : List Char) : List Char :=
  (l.reverse.takeWhile (fun c => !(isLineTerm c))).reverse

/-- Opening brace character (written with a hex escape). -/
def openBrace : Char := '\x7b'

/-- Closing brace character (written with a hex escape). -/
def closeBrace : Char := '\x7d'

/-- JSON syntax values, the possible results of `JSON.parse`.  Numbers keep
their source lexeme: no claim depends on numeric values. -/
inductive Json where
  | null : Json
  | bool : Bool → Json
  | num : List Char → Json
  | str : List Char → Json
  | arr : List Json → Json
  | obj : List (List Char × Json) → Json
deriving Repr

/-- Insignificant whitespace of the JSON grammar. -/
def jsonWS (c : Char) : Bool :=
  c = ' ' || c = '\t' || c = '\n' || c = '\r'

/-- Skip insignificant JSON whitespace. -/
def skipWS (l : List Char) : List Char := l.dropWhile jsonWS

/-- Decimal digit test. -/
def isJsonDigit (c : Char) : Bool := '0' ≤ c && c ≤ '9'

/-- Value of one hexadecimal digit. -/
def hexVal (c : Char) : Option Nat :=
  if '0' ≤ c && c ≤ '9' then some (c.toNat - ('0').toNat)
  else if 'a' ≤ c && c ≤ 'f' then some (c.toNat - ('a').toNat + 10)
  else if 'A' ≤ c && c ≤ 'F' then some (c.toNat - ('A').toNat + 10)
  else none

/-- Parse the body of a JSON string after its opening quote, decoding the
escape sequences; returns the decoded characters and the rest of the input
after the closing quote. -/
def parseStringBody : Nat → List Char → Option (List Char × List Char)
  | 0, _ => none
  | _, [] => none
  | fuel + 1, c :: t =>
    if c = '"' then some ([], t)
    else if c = '\\' then
      match t with
      | [] => none
      | e :: t2 =>
        if e = '"' ∨ e = '\\' ∨ e = '/' then
          (parseStringBody fuel t2).map (fun p => (e :: p.1, p.2))
        else if e = 'b' then
          (parseStringBody fuel t2).map (fun p => (Char.ofNat 8 :: p.1, p.2))
        else if e = 'f' then
          (parseStringBody fuel t2).map (fun p => (Char.ofNat 12 :: p.1, p.2))
        else if e = 'n' then
          (parseStringBody fuel t2).map (fun p => ('\n' :: p.1, p.2))
        else if e = 'r' then
          (parseStringBody fuel t2).map (fun p => ('\r' :: p.1, p.2))
        else if e = 't' then
          (parseStringBody fuel t2).map (fun p => ('\t' :: p.1, p.2))
        else if e = 'u' then
          match t2 with
          | h1 :: h2 :: h3 :: h4 :: t3 =>
            match hexVal h1, hexVal h2, hexVal h3, hexVal h4 with
            | some a, some b, some c2, some d =>
              (parseStringBody fuel t3).map
                (fun p => (Char.ofNat (((a * 16 + b) * 16 + c2) * 16 + d) :: p.1, p.2))
            | _, _, _, _ => none
          | _ => none
        else none
    else if c.toNat < 32 then none
    else (parseStringBody fuel t).map (fun p => (c :: p.1, p.2))

/-- Optional fraction part of a JSON number; fails on a dot without digits. -/
def parseFrac (l : List Char) : Option (List Char × List Char) :=
  match l with
  | '.' :: t =>
    let ds := t.takeWhile isJsonDigit
    if ds.isEmpty then none else some ('.' :: ds, t.dropWhile isJsonDigit)
  | _ => some ([], l)

/-- Optional exponent part of a JSON number; fails on an exponent marker
without digits. -/
def parseExp (l : List Char) : Option (List Char × List Char) :=
  match l with
  | c :: t =>
    if c = 'e' ∨ c = 'E' then
      match t with
      | s :: t3 =>
        if s = '+' ∨ s = '-' then
          let ds := t3.takeWhile isJsonDigit
          if ds.isEmpty then none
          else some (c :: s :: ds, t3.dropWhile isJsonDigit)
        else
          let ds := t.takeWhile isJsonDigit
          if ds.isEmpty then none else some (c :: ds, t.dropWhile isJsonDigit)
      | [] => none
    else some ([], l)
  | [] => some ([], l)

/-- Parse a JSON number; returns its lexeme and the rest of the input. -/
def parseNumber (l : List Char) : Option (List Char × List Char) :=
  let sgn : List Char × List Char :=
    match l with
    | '-' :: t => (['-'], t)
    | _ => ([], l)
  match sgn.2 with
  | [] => none
  | c :: t =>
    if isJsonDigit c then
      let ip : List Char × List Char :=
        if c = '0' then (['0'], t)
        else (c :: t.takeWhile isJsonDigit, t.dropWhile isJsonDigit)
      match parseFrac ip.2 with
      | none => none
      | some fr =>
        match parseExp fr.2 with
        | none => none
        | some ex => some (sgn.1 ++ ip.1 ++ fr.1 ++ ex.1, ex.2)
    else none

mutual

/-- Fuel-bounded recursive-descent parser for one JSON value, faithful to
the grammar accepted by `JSON.parse`; returns the value and the rest of
the input. -/
def parseValueF : Nat → List Char → Option (Json × List Char)
  | 0, _ => none
  | fuel + 1, l =>
    match l with
    | [] => none
    | c :: t =>
      if c = openBrace then
        match skipWS t with
        | d :: r =>
          if d = closeBrace then some (.obj [], r)
          else
            match parseFieldsF fuel (d :: r) with
            | some (fs, r2) =>
              match skipWS r2 with
              | d2 :: r3 => if d2 = closeBrace then some (.obj fs, r3) else none
              | [] => none
            | none => none
        | [] => none
      else if c = '[' then
        match skipWS t with
        | ']' :: r => some (.arr [], r)
        | r =>
          match parseElemsF fuel r with
          | some (es, r2) =>
            match skipWS r2 with
            | ']' :: r3 => some (.arr es, r3)
            | _ => none
          | none => none
      else if c = '"' then
        (parseStringBody (fuel + 1) t).map (fun p => (.str p.1, p.2))
      else if c = 't' then
        match l with
        | 't' :: 'r' :: 'u' :: 'e' :: r => some (.bool true, r)
        | _ => none
      else if c = 'f' then
        match l with
        | 'f' :: 'a' :: 'l' :: 's' :: 'e' :: r => some (.bool false, r)
        | _ => none
      else if c = 'n' then
        match l with
        | 'n' :: 'u' :: 'l' :: 'l' :: r => some (.null, r)
        | _ => none
      else
        match parseNumber l with
        | some p => some (.num p.1, p.2)
        | none => none

/-- Parse one or more comma-separated JSON object members. -/
def parseFieldsF : Nat → List Char → Option (List (List Char × Json) × List Char)
  | 0, _ => none
  | fuel + 1, l =>
    match l with
    | '"' :: t =>
      match parseStringBody (fuel + 1) t with
      | some (key, r1) =>
        match skipWS r1 with
        | ':' :: r2 =>
          match parseValueF fuel (skipWS r2) with
          | some (v, r3) =>
            match skipWS r3 with
            | ',' :: r4 =>
              match parseFieldsF fuel (skipWS r4) with
              | some (fs, r5) => some ((key, v) :: fs, r5)
              | none => none
            | _ => some ([(key, v)], r3)
          | none => none
        | _ => none
      | none => none
    | _ => none

/-- Parse one or more comma-separated JSON array elements. -/
def parseElemsF : Nat → List Char → Option (List Json × List Char)
  | 0, _ => none
  | fuel + 1, l =>
    match parseValueF fuel l with
    | some (v, r1) =>
      match skipWS r1 with
      | ',' :: r2 =>
        match parseElemsF fuel (skipWS r2) with
        | some (es, r3) => some (v :: es, r3)
        | none => none
      | _ => some ([v], r1)
    | none => none

end

/-- Model of `JSON.parse` on a whole text: one JSON value surrounded by
insignificant whitespace; `none` models a thrown SyntaxError.  The fuel is
an upper bound on recursion depth, amply larger than the input length. -/
def jsonParse (l : List Char) : Option Json :=
  match parseValueF (2 * l.length + 2) (skipWS l) with
  | some (v, r) => if (skipWS r).isEmpty then some v else none
  | none => none

/-- Model of the dot-all greedy brace regex of `safeParseRouter` line 187:
its leftmost match runs from the first opening brace that has a closing
brace after it, up to the last closing brace of the text; `none` when no
such pair exists. -/
def extractBrace (l : List Char) : Option (List Char) :=
  match l.dropWhile (fun c => c != openBrace) with
  | [] => none
  | c :: t =>
    if t.contains closeBrace then
      some (((c :: t).reverse.dropWhile (fun d => d != closeBrace)).reverse)
    else none

/-- Model of `safeParseRouter` (lines 182-197): a direct parse of the whole
text, then a retry on the brace-regex match, then the absent value. -/
def safeParseRouter (text : List Char) : Option Json :=
  match jsonParse text with
  | some v => some v
  | none =>
    match extractBrace text with
    | some s => jsonParse s
    | none => none

/-- The four extraction modes of the source's `Mode` type. -/
inductive Mode where
  | table : Mode
  | chart : Mode
  | diagram : Mode
  | general : Mode
deriving DecidableEq, Repr

/-- The `forceMode` preference: "auto" or one fixed mode. -/
inductive ForceMode where
  | auto : ForceMode
  | mode : Mode → ForceMode
deriving DecidableEq, Repr

/-- Outcome of the classification request of `decideMode`: a thrown
request/API error, or a reply text (the coalesced `output_text`). -/
inductive ClassifyOutcome where
  | err : ClassifyOutcome
  | ok : List Char → ClassifyOutcome
deriving DecidableEq, Repr

/-- JavaScript property lookup on a parsed JSON object with duplicate keys:
the last occurrence wins. -/
def objLookup (fields : List (List Char × Json)) (key : List Char) : Option Json :=
  fields.foldl (fun acc kv => if kv.1 = key then some kv.2 else acc) none

/-- Decode a string into a member of the mode enumeration. -/
def modeOfString (s : List Char) : Option Mode :=
  if s = ("table").toList then some Mode.table
  else if s = ("chart").toList then some Mode.chart
  else if s = ("diagram").toList then some Mode.diagram
  else if s = ("general").toList then some Mode.general
  else none

/-- The four strict-equality tests of `decideMode` lines 165-170: the
optional-chained `type` property of the parsed value compared against the
mode strings; anything but an object with a matching string `type` fails
all four tests. -/
def modeOfType (v : Json) : Option Mode :=
  match v with
  | Json.obj fields =>
    match objLookup fields (("type").toList) with
    | some (Json.str s) => modeOfString s
    | _ => none
  | _ => none

/-- Model of `decideMode` (lines 129-180) instrumented with the number of
classification requests issued: a non-auto `forceMode` returns at once with
zero requests; in auto mode one request is issued and any error, parse
failure or out-of-enumeration type falls back to the general mode. -/
def decideModeT (force : ForceMode) (classify : Unit → ClassifyOutcome) : Mode × Nat :=
  match force with
  | ForceMode.mode m => (m, 0)
  | ForceMode.auto =>
    match classify () with
    | ClassifyOutcome.err => (Mode.general, 1)
    | ClassifyOutcome.ok text =>
      match (safeParseRouter text).bind modeOfType with
      | some m => (m, 1)
      | none => (Mode.general, 1)

/-- The mode returned by `decideMode` for a given classification outcome. -/
def decideMode (force : ForceMode) (outcome : ClassifyOutcome) : Mode :=
  (decideModeT force (fun _ => outcome)).1

/-- Model of `parseInt(s, 10)`: skip leading whitespace, read an optional
sign and then leading decimal digits; `none` models NaN (no digits). -/
def parseIntBase10 (s : List Char) : Option Int :=
  let r := s.dropWhile isWS
  let sr : Int × List Char :=
    match r with
    | '-' :: t => (-1, t)
    | '+' :: t => (1, t)
    | _ => (1, r)
  let digits := sr.2.takeWhile isJsonDigit
  if digits.isEmpty then none
  else some (sr.1 * (digits.foldl (fun a c => a * 10 + (c.toNat - ('0').toNat)) 0 : Nat))

/-- JavaScript truthiness default of `main` line 39: NaN and zero are falsy
and select the default. -/
def jsOrDefault (r : Option Int) (d : Int) : Int :=
  match r with
  | none => d
  | some v => if v = 0 then d else v

/-- The effective output budget computed at `main` line 39. -/
def effectiveMaxChars (s : List Char) : Int :=
  jsOrDefault (parseIntBase10 s) 12000

/-- Preferences consumed by `main` and `decideMode` (the API key and model
identifiers do not influence control flow and are omitted). -/
structure Prefs where
  maxOutputChars : List Char
  includeConfidence : Bool
  forceMode : ForceMode
  debugLogging : Bool
deriving Repr

/-- Environment of one run: the preference values and the outcomes of the
external interactions (capture, classification request, extraction
request). -/
structure Env where
  prefs : Prefs
  capture : Option (List Char)
  routerOutcome : ClassifyOutcome
  extractOutcome : Except (List Char) (List Char)

/-- Observable events of one run of `main`, in program order. -/
inductive Event where
  | closeWindow : Event
  | hud : List Char → Event
  | routerRequest : Event
  | extractRequest : Event
  | clipboardCopy : List Char → Event
  | toastSuccess : Mode → Event
  | toastFailure : List Char → Event
  | unlink : List Char → Event
deriving DecidableEq, Repr

/-- Model of `main` (lines 36-81) as the list of observable events it
performs: close the window, capture (returning at once on cancellation
with a HUD message and nothing else), show the progress HUD, issue the
classification request only in auto mode, issue the extraction request,
then either the top-level failure toast (on an extraction error) or the
clipboard write, success toast and temp-file removal. -/
def mainEvents (env : Env) : List Event :=
  let maxChars := effectiveMaxChars env.prefs.maxOutputChars
  Event.closeWindow ::
    match env.capture with
    | none => [Event.hud (("Screenshot cancelled").toList)]
    | some imagePath =>
      Event.hud (("Extracting data...").toList) ::
        ((match env.prefs.forceMode with
          | ForceMode.auto => [Event.routerRequest]
          | ForceMode.mode _ => []) ++
         Event.extractRequest ::
           match env.extractOutcome with
           | Except.error msg => [Event.toastFailure msg]
           | Except.ok raw =>
             [Event.clipboardCopy
                (sanitizeOutput raw maxChars env.prefs.includeConfidence),
              Event.toastSuccess (decideMode env.prefs.forceMode env.routerOutcome),
              Event.unlink imagePath])

/-! Helper lemmas about `dropWhile`, `takeWhile`, reversal and trimming. -/

theorem dropWhile_head_not {α : Type} (p : α → Bool) (l : List α) (c : α)
    (h : (l.dropWhile p).head? = some c) : p c = false := by
  induction l with
  | nil => simp [List.dropWhile] at h
  | cons a t ih =>
    rw [List.dropWhile_cons] at h
    by_cases hp : p a = true
    · rw [if_pos hp] at h
      exact ih h
    · rw [if_neg hp] at h
      simp only [List.head?_cons, Option.some.injEq] at h
      subst h
      exact Bool.eq_false_iff.mpr hp

theorem dropWhile_eq_self {α : Type} (p : α → Bool) (l : List α)
    (h : ∀ c, l.head? = some c → p c = false) : l.dropWhile p = l := by
  cases l with
  | nil => rfl
  | cons a t =>
    rw [List.dropWhile_cons, if_neg (by simp [h a rfl])]

theorem dropWhile_idem {α : Type} (p : α → Bool) (l : List α) :
    (l.dropWhile p).dropWhile p = l.dropWhile p :=
  dropWhile_eq_self p _ (fun c h => dropWhile_head_not p l c h)

theorem headq_append {α : Type} (a b : List α) (c : α) (h : a.head? = some c) :
    (a ++ b).head? = some c := by
  cases a with
  | nil => simp at h
  | cons x t => simpa using h

theorem headq_take {α : Type} (l : List α) (n : Nat) (hn : 1 ≤ n) :
    (l.take n).head? = l.head? := by
  cases l with
  | nil => simp
  | cons a t =>
    cases n with
    | zero => omega
    | succ m => simp [List.take]

theorem takeWhile_append_of_all {α : Type} (p : α → Bool) (xs ys : List α)
    (h : xs.all p = true) : (xs ++ ys).takeWhile p = xs ++ ys.takeWhile p := by
  induction xs with
  | nil => simp
  | cons a t ih =>
    rw [List.all_cons, Bool.and_eq_true] at h
    simp [List.takeWhile_cons, h.1, ih h.2]

theorem all_takeWhile {α : Type} (p : α → Bool) (l : List α) :
    (l.takeWhile p).all p = true := by
  induction l with
  | nil => rfl
  | cons a t ih =>
    rw [List.takeWhile_cons]
    by_cases hp : p a = true
    · rw [if_pos hp]
      simp [List.all_cons, hp, ih]
    · rw [if_neg hp]
      rfl

theorem dropWhile_split {α : Type} (p : α → Bool) (l : List α) :
    ∃ t, l = t ++ l.dropWhile p :=
  ⟨l.takeWhile p, (List.takeWhile_append_dropWhile p l).symm⟩

theorem append_split_trans {α : Type} (a b c : List α)
    (h1 : ∃ t, a = t ++ b) (h2 : ∃ t, b = t ++ c) : ∃ t, a = t ++ c := by
  obtain ⟨t1, ht1⟩ := h1
  obtain ⟨t2, ht2⟩ := h2
  exact ⟨t1 ++ t2, by rw [ht1, ht2, List.append_assoc]⟩

theorem dropWhile_isWS_eq_jsTrim_append (l : List Char) :
    ∃ t, l.dropWhile isWS = jsTrim l ++ t := by
  refine ⟨((l.dropWhile isWS).reverse.takeWhile isWS).reverse, ?_⟩
  unfold jsTrim
  rw [← List.reverse_append, List.takeWhile_append_dropWhile, List.reverse_reverse]

theorem jsTrim_head_not_ws (l : List Char) (c : Char) (h : (jsTrim l).head? = some c) :
    isWS c = false := by
  obtain ⟨t, ht⟩ := dropWhile_isWS_eq_jsTrim_append l
  have h2 : (l.dropWhile isWS).head? = some c := by
    rw [ht]
    exact headq_append _ _ _ h
  exact dropWhile_head_not isWS l c h2

theorem jsTrim_reverse_head_not_ws (l : List Char) (c : Char)
    (h : (jsTrim l).reverse.head? = some c) : isWS c = false := by
  unfold jsTrim at h
  rw [List.reverse_reverse] at h
  exact dropWhile_head_not isWS _ c h

theorem jsTrim_eq_self (l : List Char)
    (h1 : ∀ c, l.head? = some c → isWS c = false)
    (h2 : ∀ c, l.reverse.head? = some c → isWS c = false) : jsTrim l = l := by
  unfold jsTrim
  rw [dropWhile_eq_self isWS l h1, dropWhile_eq_self isWS l.reverse h2, List.reverse_reverse]

theorem jsTrim_idem (l : List Char) : jsTrim (jsTrim l) = jsTrim l :=
  jsTrim_eq_self _ (jsTrim_head_not_ws l) (jsTrim_reverse_head_not_ws l)

/-! Helper lemmas about the boilerplate match and the confidence suffix. -/

theorem orElse_eq_some {α : Type} (a b : Option α) (r : α) (h : (a <|> b) = some r) :
    a = some r ∨ b = some r := by
  cases a with
  | none => right; exact h
  | some x => left; exact h

theorem ciMatch_append (ps : List Char) :
    ∀ l r : List Char, ciMatch ps l = some r → ∃ t, l = t ++ r := by
  induction ps with
  | nil =>
    intro l r h
    simp [ciMatch] at h
    exact ⟨[], by simp [h]⟩
  | cons p ps ih =>
    intro l r h
    cases l with
    | nil => simp [ciMatch] at h
    | cons c cs =>
      simp only [ciMatch] at h
      by_cases hc : c.toLower = p
      · rw [if_pos hc] at h
        obtain ⟨t, ht⟩ := ih cs r h
        exact ⟨c :: t, by rw [ht]; rfl⟩
      · rw [if_neg hc] at h
        cases h

theorem leadIn_split (l r : List Char) (h : leadIn l = some r) : ∃ t, l = t ++ r := by
  rcases orElse_eq_some _ _ _ h with h1 | h1
  · exact ciMatch_append _ _ _ h1
  · exact ciMatch_append _ _ _ h1

theorem leadKeyword_split (l r : List Char) (h : leadKeyword l = some r) : ∃ t, l = t ++ r := by
  rcases orElse_eq_some _ _ _ h with h1 | h1
  · exact ciMatch_append _ _ _ h1
  rcases orElse_eq_some _ _ _ h1 with h2 | h2
  · exact ciMatch_append _ _ _ h2
  · exact ciMatch_append _ _ _ h2

theorem afterPunct_split (l : List Char) : ∃ t, l = t ++ afterPunct l := by
  cases l with
  | nil => exact ⟨[], rfl⟩
  | cons c t =>
    simp only [afterPunct]
    by_cases hc : c = ':' ∨ c = '-'
    · rw [if_pos hc]
      exact ⟨[c], rfl⟩
    · rw [if_neg hc]
      exact ⟨[], rfl⟩

theorem matchLeadIn_split (l r : List Char) (h : matchLeadIn l = some r) :
    ∃ t, l = t ++ r := by
  unfold matchLeadIn at h
  split at h
  · cases h
  · rename_i r1 h1
    split at h
    · split at h
      · cases h
      · rename_i hw r3 h2
        simp only [Option.some.injEq] at h
        have s1 : ∃ t, l = t ++ r1 := leadIn_split l r1 h1
        have s2 : ∃ t, r1 = t ++ r1.dropWhile isWS := dropWhile_split isWS r1
        have s3 : ∃ t, r1.dropWhile isWS = t ++ r3 := leadKeyword_split _ r3 h2
        have s4 : ∃ t, r3 = t ++ r3.dropWhile isWS := dropWhile_split isWS r3
        have s5 : ∃ t, r3.dropWhile isWS = t ++ afterPunct (r3.dropWhile isWS) :=
          afterPunct_split _
        have s6 : ∃ t, afterPunct (r3.dropWhile isWS) = t ++ r := by
          rw [← h]
          exact dropWhile_split isWS _
        exact append_split_trans _ _ _ s1 (append_split_trans _ _ _ s2
          (append_split_trans _ _ _ s3 (append_split_trans _ _ _ s4
            (append_split_trans _ _ _ s5 s6))))
    · cases h

theorem matchLeadIn_head_not_ws (l r : List Char) (h : matchLeadIn l = some r)
    (c : Char) (hc : r.head? = some c) : isWS c = false := by
  unfold matchLeadIn at h
  split at h
  · cases h
  · split at h
    · split at h
      · cases h
      · simp only [Option.some.injEq] at h
        subst h
        exact dropWhile_head_not isWS _ c hc
    · cases h

theorem stripTrim_head_not_ws (text : List Char) (c : Char)
    (h : (stripBoilerplate (jsTrim text)).head? = some c) : isWS c = false := by
  unfold stripBoilerplate at h
  split at h
  · rename_i r hm
    exact matchLeadIn_head_not_ws _ r hm c h
  · exact jsTrim_head_not_ws text c h

theorem confStep_headq (b : Bool) (c : Char) (r : List Char) :
    (confStep b (c :: r)).head? = some c := by
  unfold confStep
  by_cases hb : (b && !(hasConfLine (c :: r))) = true
  · rw [if_pos hb, List.cons_append, List.head?_cons]
  · rw [if_neg hb, List.head?_cons]

theorem takeWhile_cons_false {α : Type} (p : α → Bool) (a : α) (t : List α)
    (h : p a = false) : (a :: t).takeWhile p = [] := by
  rw [List.takeWhile_cons, if_neg (by simp [h])]

theorem lastLine_append_confSuffix (a : List Char) :
    lastLine (a ++ confMediumSuffix) = confMediumLine := by
  unfold lastLine
  have h1 : a ++ confMediumSuffix = a ++ '\n' :: confMediumLine := rfl
  rw [h1, List.reverse_append, List.reverse_cons, List.append_assoc]
  rw [takeWhile_append_of_all _ _ _ (by decide)]
  rw [List.singleton_append]
  rw [takeWhile_cons_false _ _ _ (by decide)]
  rw [List.append_nil, List.reverse_reverse]

/-! Claim theorems about the output sanitizer. -/

/-- Claim C9: `sanitizeOutput` is a total function of its three arguments
(its model is a Lean function, with no failure path), and its result is
always trimmed of leading and trailing whitespace: trimming the result
again changes nothing. -/
theorem sanitizeOutput_trimmed (text : List Char) (maxChars : Int) (conf : Bool) :
    jsTrim (sanitizeOutput text maxChars conf) = sanitizeOutput text maxChars conf := by
  unfold sanitizeOutput
  exact jsTrim_idem _

/-- Claim C8: on the raw extraction reply holding a tab-separated two-row
table, with the confidence toggle disabled and a budget of 12000,
`sanitizeOutput` returns its input unchanged. -/
theorem sanitizeOutput_tsv_example :
    sanitizeOutput (("A\tB\n1\t2").toList) 12000 false = ("A\tB\n1\t2").toList := by
  decide

/-- Claim C6: the boilerplate-strip step is the identity on every string on
which the anchored lead-in regex does not match, and when the regex does
match the step removes exactly one matched prefix from the very start of
the text (the case-insensitivity is part of the `matchLeadIn` model). -/
theorem stripBoilerplate_cases (l : List Char) :
    (matchLeadIn l = none → stripBoilerplate l = l)
  ∧ (∀ r, matchLeadIn l = some r → stripBoilerplate l = r ∧ ∃ t, l = t ++ r) := by
  constructor
  · intro h
    unfold stripBoilerplate
    rw [h]
  · intro r h
    constructor
    · unfold stripBoilerplate
      rw [h]
    · exact matchLeadIn_split l r h

/-- Witness for claim C6 at a concrete lead-in text. -/
theorem stripBoilerplate_cases_witness :
    stripBoilerplate (("The image contains: a cat").toList) = ("a cat").toList ∧
    ∃ t, ("The image contains: a cat").toList = t ++ ("a cat").toList :=
  (stripBoilerplate_cases (("The image contains: a cat").toList)).2
    (("a cat").toList) (by decide)

/-- Claim C1 (amended): with the confidence toggle enabled, when the
multiline confidence regex matches nowhere in the trimmed and
boilerplate-stripped text and that text plus the 19-character appended
confidence suffix fits within the budget, the final line of the sanitized
output is exactly the default confidence line; and when the regex already
matches somewhere in the text, the confidence step leaves the text
unmodified. -/
theorem sanitizeOutput_confidence (text : List Char) (budget : Int) :
    (hasConfLine (stripBoilerplate (jsTrim text)) = false →
      ((stripBoilerplate (jsTrim text)).length : Int) + 19 ≤ budget →
      lastLine (sanitizeOutput text budget true) = confMediumLine)
  ∧ (hasConfLine (stripBoilerplate (jsTrim text)) = true →
      confStep true (stripBoilerplate (jsTrim text)) = stripBoilerplate (jsTrim text)) := by
  constructor
  · intro hno hfit
    unfold sanitizeOutput
    have hconf : confStep true (stripBoilerplate (jsTrim text))
        = stripBoilerplate (jsTrim text) ++ confMediumSuffix := by
      unfold confStep
      rw [hno]
      rfl
    rw [hconf]
    have hlen : ¬ (((stripBoilerplate (jsTrim text) ++ confMediumSuffix).length : Int) > budget) := by
      rw [List.length_append]
      have h19 : confMediumSuffix.length = 19 := by decide
      rw [h19]
      push_cast
      omega
    have htr : truncStep budget (stripBoilerplate (jsTrim text) ++ confMediumSuffix)
        = stripBoilerplate (jsTrim text) ++ confMediumSuffix := by
      unfold truncStep
      rw [if_neg hlen]
    rw [htr]
    cases hs : stripBoilerplate (jsTrim text) with
    | nil => decide
    | cons c rest =>
      have hc : isWS c = false := stripTrim_head_not_ws text c (by rw [hs]; rfl)
      have htrim : jsTrim ((c :: rest) ++ confMediumSuffix) = (c :: rest) ++ confMediumSuffix := by
        apply jsTrim_eq_self
        · intro d hd
          rw [List.cons_append, List.head?_cons] at hd
          simp only [Option.some.injEq] at hd
          rw [← hd]
          exact hc
        · intro d hd
          rw [List.reverse_append] at hd
          have hm : (confMediumSuffix.reverse ++ (c :: rest).reverse).head? = some 'm' :=
            headq_append _ _ _ (by decide)
          rw [hm] at hd
          simp only [Option.some.injEq] at hd
          rw [← hd]
          decide
      rw [htrim]
      exact lastLine_append_confSuffix _
  · intro hyes
    unfold confStep
    rw [hyes]
    rfl

/-- Witness for claim C1 at a concrete text and the default budget. -/
theorem sanitizeOutput_confidence_witness :
    lastLine (sanitizeOutput (("hello").toList) 12000 true) = confMediumLine :=
  (sanitizeOutput_confidence (("hello").toList) 12000).1 (by decide) (by decide)

/-- Input refuting claim C1 as stated: its trailing line is a bare "X", not
a compliant confidence line, but an earlier line already matches the
confidence regex. -/
def cexConfidenceInput : List Char := ("Confidence: high\nX").toList

/-- Counterexample to claim C1 as stated: the raw text lacks a trailing
compliant confidence line (its last line is "X"), the toggle is enabled and
the budget is ample, yet the final line of the sanitized output is "X"
rather than the default confidence line, because the code's multiline test
is satisfied by the earlier line and nothing is appended. -/
theorem sanitizeOutput_confidence_cex :
    lastLine cexConfidenceInput = ('X' :: []) ∧
    lastLine (sanitizeOutput cexConfidenceInput 12000 true) = ('X' :: []) ∧
    ('X' :: []) ≠ confMediumLine := by
  refine ⟨by decide, by decide, by decide⟩

/-- Claim C2 (amended): for a positive budget, when the processed text
(trimmed, boilerplate-stripped — nonempty at that point — and optionally
confidence-appended) is longer than the budget, `sanitizeOutput` returns
exactly the first budget characters of the processed text followed by the
truncation marker on a new line, and the result length is the budget plus
the 12 marker characters. -/
theorem sanitizeOutput_truncation (text : List Char) (budget : Int) (conf : Bool)
    (hb : 1 ≤ budget)
    (hne : stripBoilerplate (jsTrim text) ≠ [])
    (hlong : budget < ((confStep conf (stripBoilerplate (jsTrim text))).length : Int)) :
    sanitizeOutput text budget conf
      = (confStep conf (stripBoilerplate (jsTrim text))).take budget.toNat ++ truncMarker
    ∧ ((sanitizeOutput text budget conf).length : Int) = budget + 12 := by
  have hslice : jsSliceTo (confStep conf (stripBoilerplate (jsTrim text))) budget
      = (confStep conf (stripBoilerplate (jsTrim text))).take budget.toNat := by
    unfold jsSliceTo
    rw [if_neg (by omega)]
  have htr : truncStep budget (confStep conf (stripBoilerplate (jsTrim text)))
      = (confStep conf (stripBoilerplate (jsTrim text))).take budget.toNat ++ truncMarker := by
    unfold truncStep
    rw [if_pos (by omega), hslice]
  obtain ⟨c, rest, hs⟩ : ∃ c rest, stripBoilerplate (jsTrim text) = c :: rest := by
    cases hx : stripBoilerplate (jsTrim text) with
    | nil => exact absurd hx hne
    | cons c rest => exact ⟨c, rest, rfl⟩
  have hc : isWS c = false := stripTrim_head_not_ws text c (by rw [hs]; rfl)
  have hhead : (confStep conf (stripBoilerplate (jsTrim text))).head? = some c := by
    rw [hs]
    exact confStep_headq conf c rest
  have h1n : 1 ≤ budget.toNat := by omega
  have htakehead :
      ((confStep conf (stripBoilerplate (jsTrim text))).take budget.toNat).head? = some c := by
    rw [headq_take _ _ h1n]
    exact hhead
  have htrim :
      jsTrim ((confStep conf (stripBoilerplate (jsTrim text))).take budget.toNat ++ truncMarker)
      = (confStep conf (stripBoilerplate (jsTrim text))).take budget.toNat ++ truncMarker := by
    apply jsTrim_eq_self
    · intro d hd
      rw [headq_append _ _ _ htakehead] at hd
      simp only [Option.some.injEq] at hd
      rw [← hd]
      exact hc
    · intro d hd
      rw [List.reverse_append] at hd
      have hm : (truncMarker.reverse ++
          ((confStep conf (stripBoilerplate (jsTrim text))).take budget.toNat).reverse).head?
          = some ']' :=
        headq_append _ _ _ (by decide)
      rw [hm] at hd
      simp only [Option.some.injEq] at hd
      rw [← hd]
      decide
  have hmain : sanitizeOutput text budget conf
      = (confStep conf (stripBoilerplate (jsTrim text))).take budget.toNat ++ truncMarker := by
    unfold sanitizeOutput
    rw [htr, htrim]
  refine ⟨hmain, ?_⟩
  rw [hmain, List.length_append, List.length_take]
  have h12 : truncMarker.length = 12 := by decide
  rw [h12]
  have hle : budget.toNat ≤ (confStep conf (stripBoilerplate (jsTrim text))).length := by omega
  rw [Nat.min_eq_left hle]
  push_cast
  omega

/-- Witness for claim C2 at a concrete text and budget. -/
theorem sanitizeOutput_truncation_witness :
    sanitizeOutput (("abcdef").toList) 3 false = ("abc\n[truncated]").toList := by
  have h := sanitizeOutput_truncation (("abcdef").toList) 3 false (by omega) (by decide) (by decide)
  rw [h.1]
  decide

/-- Input refuting claim C2 as stated: twelve characters, ten of them
trailing spaces. -/
def cexTruncInput : List Char := ("ab          ").toList

/-- Counterexample to claim C2 as stated: the raw input is longer than the
budget of 11, yet the sanitized output is the two-character string "ab"
(trimming shrinks the text below the budget before the truncation check),
so the output length is not the budget plus the marker length and the
marker is absent. -/
theorem sanitizeOutput_truncation_cex :
    (11 : Int) < (cexTruncInput.length : Int) ∧
    sanitizeOutput cexTruncInput 11 false = ('a' :: 'b' :: []) ∧
    (('a' :: 'b' :: []) : List Char).length ≠ 11 + 12 := by
  refine ⟨by decide, by decide, by decide⟩

/-! Claim theorems about the router, the parser fallback and the run. -/

theorem all_of_reverse {α : Type} (p : α → Bool) (l : List α)
    (h : l.all p = true) : l.reverse.all p = true := by
  rw [List.all_eq_true] at h
  rw [List.all_eq_true]
  intro x hx
  exact h x (List.mem_reverse.mp hx)

/-- Claim C5: `safeParseRouter` first attempts the direct parse of the full
text and returns its value on success; on failure it retries the parse on
the brace-regex match (whose leftmost match starts at the first opening
brace of the text and extends greedily to the last closing brace); when
there is no such match it returns the absent value.  The fourth conjunct
certifies the extracted substring: the text splits around it with no
opening brace before it and no closing brace after it. -/
theorem safeParseRouter_fallback (text : List Char) :
    (∀ v, jsonParse text = some v → safeParseRouter text = some v)
  ∧ (jsonParse text = none → ∀ s, extractBrace text = some s →
      safeParseRouter text = jsonParse s)
  ∧ (jsonParse text = none → extractBrace text = none → safeParseRouter text = none)
  ∧ (∀ s, extractBrace text = some s →
      ∃ pre post, text = pre ++ (s ++ post) ∧
        pre.all (fun c => c != openBrace) = true ∧
        post.all (fun c => c != closeBrace) = true) := by
  refine ⟨?_, ?_, ?_, ?_⟩
  · intro v h
    unfold safeParseRouter
    rw [h]
  · intro h s hs
    unfold safeParseRouter
    rw [h, hs]
  · intro h hs
    unfold safeParseRouter
    rw [h, hs]
  · intro s hs
    unfold extractBrace at hs
    split at hs
    · cases hs
    · rename_i c t hd
      by_cases hc : t.contains closeBrace = true
      · rw [if_pos hc] at hs
        simp only [Option.some.injEq] at hs
        refine ⟨text.takeWhile (fun c => c != openBrace),
                ((c :: t).reverse.takeWhile (fun d => d != closeBrace)).reverse, ?_, ?_, ?_⟩
        · have h1 : text = text.takeWhile (fun c => c != openBrace) ++ (c :: t) := by
            rw [← hd]
            exact (List.takeWhile_append_dropWhile _ text).symm
          have h2 : (c :: t)
              = s ++ ((c :: t).reverse.takeWhile (fun d => d != closeBrace)).reverse := by
            rw [← hs, ← List.reverse_append, List.takeWhile_append_dropWhile,
              List.reverse_reverse]
          rw [h2] at h1
          exact h1
        · exact all_takeWhile _ _
        · exact all_of_reverse _ _ (all_takeWhile _ _)
      · rw [if_neg hc] at hs
        cases hs

/-- Witness for claim C5 at a concrete unparsable reply with an embedded
JSON object: the router result is the retried parse of the brace match. -/
theorem safeParseRouter_fallback_witness :
    safeParseRouter (("oops \x7b\"type\": \"table\"\x7d").toList)
      = jsonParse (("\x7b\"type\": \"table\"\x7d").toList) :=
  (safeParseRouter_fallback (("oops \x7b\"type\": \"table\"\x7d").toList)).2.1
    (by rfl) (("\x7b\"type\": \"table\"\x7d").toList) (by decide)

/-- Claim C3: in auto mode `decideMode` is a total function that never
propagates an error, and it returns the general mode on every degraded
classification outcome: a thrown request error, a reply text on which both
parse attempts fail, and a parsed value whose `type` is outside the mode
enumeration. -/
theorem decideMode_auto_defaults (outcome : ClassifyOutcome) :
    (outcome = ClassifyOutcome.err → decideMode ForceMode.auto outcome = Mode.general)
  ∧ (∀ t, outcome = ClassifyOutcome.ok t → safeParseRouter t = none →
      decideMode ForceMode.auto outcome = Mode.general)
  ∧ (∀ t v, outcome = ClassifyOutcome.ok t → safeParseRouter t = some v →
      modeOfType v = none → decideMode ForceMode.auto outcome = Mode.general) := by
  refine ⟨?_, ?_, ?_⟩
  · intro h
    subst h
    rfl
  · intro t h hp
    subst h
    simp [decideMode, decideModeT, hp]
  · intro t v h hp hm
    subst h
    simp [decideMode, decideModeT, hp, hm]

/-- Witness for claim C3 at the concrete unparsable reply of the spec's
end-to-end scenario. -/
theorem decideMode_auto_defaults_witness :
    decideMode ForceMode.auto (ClassifyOutcome.ok (("not json").toList)) = Mode.general :=
  (decideMode_auto_defaults (ClassifyOutcome.ok (("not json").toList))).2.1
    (("not json").toList) rfl (by rfl)

/-- Claim C4: with a forced valid mode, `decideMode` returns exactly that
mode with zero classification requests, for every possible classification
oracle. -/
theorem decideMode_forced (m : Mode) (classify : Unit → ClassifyOutcome) :
    decideModeT (ForceMode.mode m) classify = (m, 0) := rfl

/-- Claim C7: when the capture step reports cancellation, the run consists
of exactly the window close and the cancellation message — in particular no
classification request, no extraction request and no clipboard write occur. -/
theorem main_cancelled (env : Env) (h : env.capture = none) :
    mainEvents env
      = (Event.closeWindow :: Event.hud (("Screenshot cancelled").toList) :: [])
  ∧ Event.routerRequest ∉ mainEvents env
  ∧ Event.extractRequest ∉ mainEvents env
  ∧ (∀ t, Event.clipboardCopy t ∉ mainEvents env) := by
  have hm : mainEvents env
      = (Event.closeWindow :: Event.hud (("Screenshot cancelled").toList) :: []) := by
    unfold mainEvents
    rw [h]
  refine ⟨hm, ?_, ?_, ?_⟩
  · rw [hm]
    simp
  · rw [hm]
    simp
  · intro t
    rw [hm]
    simp

/-- Environment of a cancelled run used by the claim C7 witness. -/
def envCancelled : Env :=
  ⟨⟨("12000").toList, false, ForceMode.auto, false⟩, none, ClassifyOutcome.err, Except.ok []⟩

/-- Witness for claim C7 at a concrete cancelled environment. -/
theorem main_cancelled_witness :
    mainEvents envCancelled
      = (Event.closeWindow :: Event.hud (("Screenshot cancelled").toList) :: []) :=
  (main_cancelled envCancelled rfl).1

/-- Claim C10: the effective output budget is 12000 for every preference
string whose radix-10 parse is NaN or zero, not only when the preference is
absent. -/
theorem effectiveMaxChars_default (s : List Char)
    (h : parseIntBase10 s = none ∨ parseIntBase10 s = some 0) :
    effectiveMaxChars s = 12000 := by
  rcases h with h | h <;> simp [effectiveMaxChars, jsOrDefault, h]

/-- Witness for claim C10 at the concrete preference string "0". -/
theorem effectiveMaxChars_default_witness : effectiveMaxChars (("0").toList) = 12000 :=
  effectiveMaxChars_default (("0").toList) (Or.inr (by decide))
